import Mathlib

/-!
Shallow embedding of the gameplay core of the Toh_hoh repository
(src/gameplay.rs and src/coords.rs).

Spatial `f32` quantities are embedded as real numbers (the sniper behavior
divides by a Euclidean norm, which needs square roots); wall-clock instants
and durations (`Instant`, `Duration`) are embedded as rationals, supplied
explicitly to each function that reads the clock, following the injectable
clock discipline stated in the specification.  The `f32` NaN produced by
normalizing a zero vector is modelled through an `Option`-valued variant of
`normalize`; the total variant used inside the state machine returns the
zero vector on that single undefined input (Lean real arithmetic gives
`(Real.sqrt 0)⁻¹ • 0 = 0`).
-/

namespace TohHoh

/-!  ## Definitions: the embedding of the gameplay core, spec-side
descriptions, and the concrete fixtures used by witnesses and
counterexamples.  -/

/-- Spatial 2D vector: cgmath `Point2<f32>` / `Vector2<f32>`, over ℝ. -/
abbrev Vec2 := ℝ × ℝ

/-- gameplay.rs: `pub const DT_60: f32 = 1. / 60.;` — the 60 Hz reference
tick duration.  Kept as a rational (it is a time quantity). -/
def DT_60 : ℚ := 1 / 60

/-- The factor `dt / DT_60` by which velocities are scaled each tick,
cast into the spatial scalars. -/
def tickScale (dt : ℚ) : ℝ := ((dt / DT_60 : ℚ) : ℝ)

/-- coords.rs: `Dimensions<f32>`. -/
structure Dimensions where
  w : ℝ
  h : ℝ

/-- coords.rs: `Rect<f32>` (`RectF`). -/
structure Rect where
  top_left : Vec2
  dims : Dimensions

/-- coords.rs: `Rect::contains` — left/top inclusive, right/bottom exclusive. -/
def Rect.contains (r : Rect) (c : Vec2) : Prop :=
  r.top_left.1 ≤ c.1 ∧ c.1 < r.top_left.1 + r.dims.w ∧
    r.top_left.2 ≤ c.2 ∧ c.2 < r.top_left.2 + r.dims.h

noncomputable instance (r : Rect) (c : Vec2) : Decidable (r.contains c) := by
  unfold Rect.contains; infer_instance

/-- gameplay.rs: `struct Cooldown` — `last_emit: Option<Instant>`,
`cooldown: Duration`. -/
structure Cooldown where
  last_emit : Option ℚ
  cooldown : ℚ

/-- gameplay.rs: `Cooldown::with_secs`. -/
def Cooldown.with_secs (secs : ℚ) : Cooldown :=
  { last_emit := none, cooldown := secs }

/-- gameplay.rs: `Cooldown::is_over` — ready when never marked, or when
`Instant::elapsed(&last) >= cooldown`; the current instant is passed in. -/
def Cooldown.is_over (c : Cooldown) (now : ℚ) : Bool :=
  match c.last_emit with
  | some last => decide (c.cooldown ≤ now - last)
  | none => true

/-- gameplay.rs: `Cooldown::emit` — record the current instant. -/
def Cooldown.emit (c : Cooldown) (now : ℚ) : Cooldown :=
  { c with last_emit := some now }

/-- gameplay.rs: `struct Inputs` snapshot consumed by `Player::update_pos`
(four movement booleans and the shoot flag; defined in the missing input
module, field names as used by gameplay.rs). -/
structure Inputs where
  up : Bool
  down : Bool
  left : Bool
  right : Bool
  shoot : Bool

/-- gameplay.rs: `struct Player`. -/
structure Player where
  pos : Vec2
  vel : Vec2
  size : Dimensions
  size_hit : Dimensions
  hp : ℕ
  hp_cd : Cooldown
  proj_cd : Cooldown

/-- gameplay.rs: `Player::new`. -/
def Player.new : Player :=
  { pos := (75, 200), vel := (0, 0), size := ⟨48, 48⟩, size_hit := ⟨10, 10⟩,
    hp := 5, hp_cd := Cooldown.with_secs 2,
    proj_cd := Cooldown.with_secs (15 * DT_60) }

/-- The movement direction `Player::update_pos` accumulates into `self.vel`
from the four input flags (left/right/up/down, in source order). -/
def Inputs.dir (inputs : Inputs) : Vec2 :=
  let vel : Vec2 := (0, 0)
  let vel := if inputs.left then vel - (1, 0) else vel
  let vel := if inputs.right then vel + (1, 0) else vel
  let vel := if inputs.up then vel - (0, 1) else vel
  let vel := if inputs.down then vel + (0, 1) else vel
  vel

/-- gameplay.rs: `Player::update_pos` — set velocity from the inputs; if it
is non-zero move to `pos + 5 * vel * dt / DT_60`, accepting each axis
independently only when the candidate coordinate stays in
`[0, bounds.dims.w]` (resp. `[0, bounds.dims.h]`). -/
noncomputable def Player.update_pos (p : Player) (inputs : Inputs) (bounds : Rect)
    (dt : ℚ) : Player :=
  let vel := inputs.dir
  if vel ≠ 0 then
    let new_pos := p.pos + (5 * tickScale dt) • vel
    let px := if 0 ≤ new_pos.1 ∧ new_pos.1 ≤ bounds.dims.w then new_pos.1 else p.pos.1
    let py := if 0 ≤ new_pos.2 ∧ new_pos.2 ≤ bounds.dims.h then new_pos.2 else p.pos.2
    { p with vel := vel, pos := (px, py) }
  else
    { p with vel := vel }

/-- gameplay.rs: `enum EnemyType`. -/
inductive EnemyType
  | Basic
  | Sniper
deriving DecidableEq

/-- gameplay.rs: `enum EnemyState`.  The Rust `OnScreen` payload is a
function pointer `fn(&mut Enemy, RectF)`; `Enemy::enemy_func` produces
exactly one such function per variant, so the payload is defunctionalized
to the `EnemyType` whose behavior was bound, interpreted by
`Enemy.runBehavior`. -/
inductive EnemyState
  | NotSpawned
  | OnScreen (behavior : EnemyType)
  | OffScreen
deriving DecidableEq

/-- gameplay.rs: `struct Enemy`. -/
structure Enemy where
  pos : Vec2
  vel : Vec2
  size : Dimensions
  hp : ℝ
  proj_cd : Cooldown
  variant : EnemyType
  state : EnemyState

/-- gameplay.rs: `Enemy::max_hp`. -/
def Enemy.max_hp : EnemyType → ℝ
  | .Basic => 15
  | .Sniper => 8

/-- gameplay.rs: `Enemy::spawn`. -/
def Enemy.spawn (pos : Vec2) (variant : EnemyType) : Enemy :=
  let size : Dimensions := match variant with
    | .Basic => ⟨48, 48⟩
    | .Sniper => ⟨32, 48⟩
  let proj_cd : Cooldown := match variant with
    | .Basic => Cooldown.with_secs (25 * DT_60)
    | .Sniper => Cooldown.with_secs (40 * DT_60)
  { pos := pos, vel := (0, 0), size := size, hp := Enemy.max_hp variant,
    proj_cd := proj_cd, variant := variant, state := .NotSpawned }

/-- gameplay.rs: the `const SPEED: f32 = 0.5;` local to `Enemy::enemy_func`
and `Enemy::update_pos`. -/
def SPEED : ℝ := 0.5

/-- cgmath `InnerSpace::normalize` for a non-zero vector:
`v / sqrt (v ∙ v)`.  On the zero vector f32 yields NaN; this total version
returns `0` there (Lean: `(Real.sqrt 0)⁻¹ = 0`); `normalizeOpt` below makes
the undefinedness explicit. -/
noncomputable def normalize (v : Vec2) : Vec2 :=
  (Real.sqrt (v.1 ^ 2 + v.2 ^ 2))⁻¹ • v

/-- `normalize` with its actual domain: `none` models the NaN result that
f32 produces on the zero vector. -/
noncomputable def normalizeOpt (v : Vec2) : Option Vec2 :=
  if v = 0 then none else some (normalize v)

/-- gameplay.rs: `Enemy::enemy_func` — returns the behavior function bound
at the `NotSpawned → OnScreen` transition; one function exists per variant,
so the returned value is the variant tag (see `EnemyState`). -/
def Enemy.enemy_func (e : Enemy) : EnemyType := e.variant

/-- The two closures returned by `Enemy::enemy_func`, interpreting the
defunctionalized behavior tag.  Basic: constant downward speed plus a
horizontal component chosen by comparing `pos.x` with `bounds.dims.w / 2`.
Sniper: the vector orthogonal to the normalized direction from the enemy
to `(bounds.dims.w / 2, 0)`, scaled by `SPEED * 5`.  Both closures only
write `enemy.vel`. -/
noncomputable def Enemy.runBehavior : EnemyType → Enemy → Rect → Enemy
  | .Basic, enemy, bounds =>
    let vel := SPEED • ((0, 1) : Vec2)
    let vel :=
      if enemy.pos.1 ≤ bounds.dims.w / 2 then vel - SPEED • ((1, 0) : Vec2)
      else if bounds.dims.w / 2 < enemy.pos.1 then vel + SPEED • ((1, 0) : Vec2)
      else vel
    { enemy with vel := vel }
  | .Sniper, enemy, bounds =>
    let mid_up : Vec2 := (bounds.dims.w / 2, 0)
    let to_mid := normalize (mid_up - enemy.pos)
    { enemy with vel := (SPEED * 5) • ((to_mid.2, -to_mid.1) : Vec2) }

/-- gameplay.rs: `Enemy::update_pos` — the state machine step: the
`NotSpawned` arm sets the fixed downward velocity, integrates the position
once and transitions on `bounds.contains`; the `OnScreen` arm runs the
bound behavior and transitions on `!bounds.contains`; `OffScreen` does
nothing.  After the match, the position is integrated (again) by the
current velocity whenever it is non-zero. -/
noncomputable def Enemy.update_pos (e : Enemy) (bounds : Rect) (dt : ℚ) : Enemy :=
  let e1 : Enemy :=
    match e.state with
    | .NotSpawned =>
      let e := { e with vel := SPEED • ((0, 1) : Vec2) }
      let e := { e with pos := e.pos + tickScale dt • e.vel }
      if bounds.contains e.pos then { e with state := .OnScreen e.enemy_func } else e
    | .OnScreen f =>
      let e := Enemy.runBehavior f e bounds
      if ¬ bounds.contains e.pos then { e with state := .OffScreen } else e
    | .OffScreen => e
  if e1.vel ≠ 0 then { e1 with pos := e1.pos + tickScale dt • e1.vel } else e1

/-- gameplay.rs: `enum ProjType`. -/
inductive ProjType
  | Basic
  | Aimed
  | PlayerShoot
deriving DecidableEq

/-- gameplay.rs: `struct Projectile`. -/
structure Projectile where
  pos : Vec2
  vel : Vec2
  variant : ProjType

/-- `matches!(proj.variant, ProjType::PlayerShoot)`. -/
def ProjType.isPlayerShot : ProjType → Bool
  | .PlayerShoot => true
  | _ => false

/-- The per-tick projectile motion `proj.pos += proj.vel * dt / DT_60`
performed at the top of the `World::update_projectiles` scan. -/
noncomputable def Projectile.integrate (p : Projectile) (dt : ℚ) : Projectile :=
  { p with pos := p.pos + tickScale dt • p.vel }

/-- gameplay.rs: `enum EventType` (`_SpawnBoss` is declared but never
produced or consumed). -/
inductive EventType
  | SpawnEnemy (pos : Vec2) (variant : EnemyType)
  | SpawnBoss (pos : Vec2)

/-- gameplay.rs: `struct Event`. -/
structure Event where
  id : ℕ
  time : Option ℚ
  ref_evt : Option (ℕ × ℚ)
  variant : EventType

/-- gameplay.rs: `struct EventSystem` (the `history` map is never written
by the code shown; it is kept as an association list). -/
structure EventSystem where
  list : List Event
  history : List (ℕ × ℚ)
  latest_id : ℕ

/-- Modelled from the spec: `crate::game::LEVEL_REF`, the distinguished
"level-start" event id, lives in the missing module game.rs; the spec only
requires it to be a well-known constant, and no claim depends on its
value. -/
def LEVEL_REF : ℕ := 0

/-- gameplay.rs: `EventSystem::new` — events whose dependency targets
`LEVEL_REF` get `time := now + offset` and their dependency cleared; all
other events are kept unchanged. -/
def EventSystem.new (evt_list : List Event) (now : ℚ) : EventSystem :=
  { list := evt_list.map (fun evt =>
      match evt.ref_evt with
      | some (x, t) =>
        if x = LEVEL_REF then { evt with time := some (now + t), ref_evt := none }
        else evt
      | none => evt),
    history := [], latest_id := 0 }

/-- Whether an event is due at `now`: `World::process_events` compares the
clock against `e.time`; per the spec an event is due exactly when its fire
time is defined and `≤ now` (an undefined fire time is never due). -/
def Event.due (e : Event) (now : ℚ) : Bool :=
  match e.time with
  | some t => decide (t ≤ now)
  | none => false

/-- The enemy spawned by a due event, if its payload is `SpawnEnemy`. -/
def spawnOf (e : Event) : Option Enemy :=
  match e.variant with
  | .SpawnEnemy pos variant => some (Enemy.spawn pos variant)
  | .SpawnBoss _ => none

/-- The first loop of `World::process_events`: walk the pending list with
its indices, pushing each due index onto `to_remove` (ascending) and each
due `SpawnEnemy` payload onto the spawned-enemy list, in scan order. -/
def collectDue (now : ℚ) : List Event → ℕ → List ℕ × List Enemy
  | [], _ => ([], [])
  | e :: es, i =>
    let rest := collectDue now es (i + 1)
    if e.due now then (i :: rest.1, (spawnOf e).toList ++ rest.2) else rest

/-- `Vec::remove(i)`: removes and returns element `i`, shifting the tail;
panics when `i` is out of range — modelled by `none`. -/
def eraseAt? (l : List α) (i : ℕ) : Option (List α) :=
  if i < l.length then some (l.eraseIdx i) else none

/-- The removal pass `for i in to_remove.into_iter().rev() { v.remove(i) }`
shared by `process_events`, `update_entities` and `update_projectiles`:
the collected indices are removed in reverse (descending) order. -/
def removeDesc (l : List α) (idxs : List ℕ) : Option (List α) :=
  idxs.reverse.foldlM (fun acc i => eraseAt? acc i) l

/-- gameplay.rs: `World::process_events`, at the level of the pending list:
returns the new pending list and the enemies spawned this call (`none`
models the `Vec::remove` panic, which the collected indices never
trigger). -/
def processEvents (l : List Event) (now : ℚ) : Option (List Event × List Enemy) :=
  let scanned := collectDue now l 0
  (removeDesc l scanned.1).map (fun l' => (l', scanned.2))

/-- gameplay.rs: `fn collide_rectangle` — for each axis, tests whether one
of B's two edges lies within A's closed span (verbatim structure of the
source conditional). -/
def collide_rectangle (pos_a pos_b : Vec2) (size_a size_b : Dimensions) : Prop :=
  ((pos_a.1 - size_a.w / 2 ≤ pos_b.1 - size_b.w / 2 ∧
      pos_b.1 - size_b.w / 2 ≤ pos_a.1 + size_a.w / 2) ∨
    (pos_a.1 - size_a.w / 2 ≤ pos_b.1 + size_b.w / 2 ∧
      pos_b.1 + size_b.w / 2 ≤ pos_a.1 + size_a.w / 2)) ∧
  ((pos_a.2 - size_a.h / 2 ≤ pos_b.2 - size_b.h / 2 ∧
      pos_b.2 - size_b.h / 2 ≤ pos_a.2 + size_a.h / 2) ∨
    (pos_a.2 - size_a.h / 2 ≤ pos_b.2 + size_b.h / 2 ∧
      pos_b.2 + size_b.h / 2 ≤ pos_a.2 + size_a.h / 2))

noncomputable instance (pos_a pos_b : Vec2) (size_a size_b : Dimensions) :
    Decidable (collide_rectangle pos_a pos_b size_a size_b) := by
  unfold collide_rectangle; infer_instance

/-- gameplay.rs: `struct World`. -/
structure World where
  player : Player
  projectiles : List Projectile
  enemies : List Enemy
  rect : Rect
  fps_cd : Cooldown
  fps : ℕ
  score : ℕ
  event_syst : EventSystem

/-- gameplay.rs: `World::process_events` as a `World` step — spawned
enemies are pushed onto the enemy collection, fired events leave the
pending list. -/
def World.process_events (w : World) (now : ℚ) : Option World :=
  (processEvents w.event_syst.list now).map (fun r =>
    { w with enemies := w.enemies ++ r.2,
             event_syst := { w.event_syst with list := r.1 } })

/-- The observable output of `World::check_end`: the console messages, in
print order (the loss message carries no score; the win message carries
the final score). -/
inductive EndMsg
  | lose
  | win (score : ℕ)
deriving DecidableEq

/-- gameplay.rs: `World::check_end` — two independent conditionals; each
prints its message and sets `ControlFlow::Exit` (the returned boolean). -/
def World.check_end (w : World) : List EndMsg × Bool :=
  let out : List EndMsg × Bool := ([], false)
  let out := if w.player.hp = 0 then (out.1 ++ [EndMsg.lose], true) else out
  let out :=
    if w.enemies.isEmpty && w.event_syst.list.isEmpty then
      (out.1 ++ [EndMsg.win w.score], true)
    else out
  out

/-- The inner enemy loop of `World::update_projectiles` for one projectile
at its post-motion position `ppos`: on an overlap with a player-sourced
projectile the enemy takes 2 damage and the projectile index is marked
(counted); if the enemy's hp drops to `≤ 0` it is removed on the spot,
100 score is awarded and the loop breaks.  Returns the surviving enemy
list, the number of marks pushed for this projectile, and the score
gained. -/
noncomputable def enemyScan (ppos : Vec2) (isShot : Bool) :
    List Enemy → List Enemy × ℕ × ℕ
  | [] => ([], 0, 0)
  | e :: es =>
    if collide_rectangle e.pos ppos e.size ⟨10, 10⟩ ∧ isShot = true then
      let e' := { e with hp := e.hp - 2 }
      if e'.hp ≤ 0 then (es, 1, 100)
      else
        let r := enemyScan ppos isShot es
        (e' :: r.1, r.2.1 + 1, r.2.2)
    else
      let r := enemyScan ppos isShot es
      (e :: r.1, r.2.1, r.2.2)

/-- The state accumulated by the `World::update_projectiles` scan. -/
structure ScanRes where
  projs : List Projectile
  player : Player
  enemies : List Enemy
  score : ℕ
  to_remove : List ℕ

/-- The main loop of `World::update_projectiles`: for each projectile (with
its index), integrate its motion; if it left the bounds, mark it and
continue; otherwise run the enemy loop, then the player check: when the
projectile is not player-sourced, the damage cooldown is ready and the
boxes overlap, decrement hp (guarded at 0); if hp is now 0 the whole scan
breaks — before the projectile is marked and before the cooldown is
marked; otherwise mark the projectile and the cooldown and continue.
Projectiles after a break keep their pre-motion state. -/
noncomputable def projScan (rect : Rect) (dt now : ℚ) :
    List Projectile → ℕ → Player → List Enemy → ℕ → List ℕ → ScanRes
  | [], _, pl, ens, sc, rem => ⟨[], pl, ens, sc, rem⟩
  | p :: ps, i, pl, ens, sc, rem =>
    let p' := p.integrate dt
    if ¬ rect.contains p'.pos then
      let r := projScan rect dt now ps (i + 1) pl ens sc (rem ++ [i])
      { r with projs := p' :: r.projs }
    else
      let er := enemyScan p'.pos p.variant.isPlayerShot ens
      let ens1 := er.1
      let rem1 := rem ++ List.replicate er.2.1 i
      let sc1 := sc + er.2.2
      if pl.hp_cd.is_over now = true ∧
          collide_rectangle pl.pos p'.pos pl.size_hit ⟨10, 10⟩ ∧
          p.variant.isPlayerShot = false then
        let hp1 := if 0 < pl.hp then pl.hp - 1 else pl.hp
        if hp1 = 0 then
          { projs := p' :: ps, player := { pl with hp := hp1 }, enemies := ens1,
            score := sc1, to_remove := rem1 }
        else
          let pl1 := { pl with hp := hp1, hp_cd := pl.hp_cd.emit now }
          let r := projScan rect dt now ps (i + 1) pl1 ens1 sc1 (rem1 ++ [i])
          { r with projs := p' :: r.projs }
      else
        let r := projScan rect dt now ps (i + 1) pl ens1 sc1 rem1
        { r with projs := p' :: r.projs }

/-- gameplay.rs: `World::update_projectiles` — the scan above followed by
the descending-index removal pass over the marked projectile indices
(`none` models the `Vec::remove` panic on an out-of-range index, which
duplicated marks can trigger). -/
noncomputable def World.update_projectiles (w : World) (dt now : ℚ) : Option World :=
  let r := projScan w.rect dt now w.projectiles 0 w.player w.enemies w.score []
  (removeDesc r.projs r.to_remove).map (fun projs' =>
    { w with projectiles := projs', player := r.player, enemies := r.enemies,
             score := r.score })

/-- The projectile spawn position used by the enemy shooting code in
`World::update_entities`: `enemy.pos + enemy.size.h * 0.6 * unit_y`. -/
noncomputable def enemyShootPos (e : Enemy) : Vec2 :=
  e.pos + (e.size.h * 0.6) • ((0, 1) : Vec2)

/-- The sniper arm of the enemy shooting code in `World::update_entities`:
`to_player` starts at zero and is replaced by the normalized direction to
the player only when `delta != zero`; the projectile velocity is
`10 * to_player`. -/
noncomputable def sniperShootVel (playerPos shootPos : Vec2) : Vec2 :=
  let delta := playerPos - shootPos
  let to_player : Vec2 := if delta ≠ 0 then normalize delta else 0
  (10 : ℝ) • to_player

/-- The velocity computed by the sniper `OnScreen` behavior with the
partiality of its unguarded `normalize` made explicit: `none` models the
NaN produced when the enemy sits exactly at `(bounds.dims.w / 2, 0)`. -/
noncomputable def sniperOnScreenVel (pos : Vec2) (bounds : Rect) : Option Vec2 :=
  (normalizeOpt ((bounds.dims.w / 2, 0) - pos)).map
    (fun to_mid => (SPEED * 5) • ((to_mid.2, -to_mid.1) : Vec2))

/-- Spec-side description of "delete exactly the marked indices": keep, in
order, every element whose position (counted from `n`) is not in `idxs`. -/
def keepUnmarked : List α → ℕ → List ℕ → List α
  | [], _, _ => []
  | a :: l, n, idxs =>
    if n ∈ idxs then keepUnmarked l (n + 1) idxs
    else a :: keepUnmarked l (n + 1) idxs

/-- A 100 × 100 playing field at the origin. -/
def cRect : Rect := ⟨((0 : ℝ), 0), ⟨100, 100⟩⟩

/-- A freshly spawned Basic enemy in the middle of the field. -/
def cEnemyA : Enemy := Enemy.spawn ((50 : ℝ), 50) .Basic

/-- A second freshly spawned Basic enemy, overlapping the same shot. -/
def cEnemyB : Enemy := Enemy.spawn ((60 : ℝ), 50) .Basic

/-- A player shot sitting on both enemies, with zero velocity. -/
def cShot0 : Projectile := ⟨((50 : ℝ), 50), (0, 0), .PlayerShoot⟩

/-- A second player shot far from everything. -/
def cShot1 : Projectile := ⟨((10 : ℝ), 10), (0, 0), .PlayerShoot⟩

/-- The player parked away from the projectiles. -/
def cPlayerFar : Player := { Player.new with pos := ((90 : ℝ), 90) }

/-- An empty event system. -/
def cEvents : EventSystem := ⟨[], [], 0⟩

/-- World for the C4 counterexample: shot 0 overlaps two surviving enemies,
shot 1 touches nothing. -/
def cWorld4 : World :=
  { player := cPlayerFar, projectiles := [cShot0, cShot1],
    enemies := [cEnemyA, cEnemyB], rect := cRect,
    fps_cd := Cooldown.with_secs (1 / 10), fps := 60, score := 0,
    event_syst := cEvents }

/-- World for the C5 counterexample: dead player, no enemies, no events. -/
def cWorld5 : World :=
  { player := { Player.new with hp := 0 }, projectiles := [], enemies := [],
    rect := cRect, fps_cd := Cooldown.with_secs (1 / 10), fps := 60, score := 0,
    event_syst := cEvents }

/-- A sniper enemy about to die from one 2-damage hit. -/
def cEnemyDying : Enemy := { Enemy.spawn ((50 : ℝ), 50) .Sniper with hp := 2 }

/-- The player one hit from death, standing at (50, 50). -/
def cPlayerLow : Player := { Player.new with pos := ((50 : ℝ), 50), hp := 1 }

/-- An enemy (Basic-sourced) projectile overlapping the player hit-box. -/
def cProjE : Projectile := ⟨((50 : ℝ), 40), (0, 10), .Basic⟩

/-- World for the C1 counterexample: one lethal enemy projectile on a
1-hp player. -/
def cWorld1 : World :=
  { player := cPlayerLow, projectiles := [cProjE], enemies := [], rect := cRect,
    fps_cd := Cooldown.with_secs (1 / 10), fps := 60, score := 0, event_syst := cEvents }

/-- The closed box `[0, w] × [0, h]` the player's movement is clamped to. -/
def inBox (bounds : Rect) (pos : Vec2) : Prop :=
  0 ≤ pos.1 ∧ pos.1 ≤ bounds.dims.w ∧ 0 ≤ pos.2 ∧ pos.2 ≤ bounds.dims.h

/-- A sequence of `Player.update_pos` calls, one per input snapshot. -/
noncomputable def playerRun (bounds : Rect) : Player → List (Inputs × ℚ) → Player
  | p, [] => p
  | p, (inp, dt) :: rest => playerRun bounds (p.update_pos inp bounds dt) rest

/-- Input snapshot pressing only "right". -/
def cInpRight : Inputs := ⟨false, false, false, true, false⟩

/-- The allowed single-step transitions of the enemy state machine:
stay, `NotSpawned → OnScreen` or `OnScreen → OffScreen`, with the
`OnScreen` behavior payload retained. -/
def stepOk : EnemyState → EnemyState → Prop
  | .NotSpawned, .NotSpawned => True
  | .NotSpawned, .OnScreen _ => True
  | .OnScreen b, .OnScreen b' => b = b'
  | .OnScreen _, .OffScreen => True
  | .OffScreen, .OffScreen => True
  | _, _ => False

/-- The trajectory of an enemy under a sequence of `(bounds, dt)` steps. -/
noncomputable def enemyTrace (e : Enemy) : List (Rect × ℚ) → List Enemy
  | [] => []
  | (b, dt) :: rest =>
    let e' := e.update_pos b dt
    e' :: enemyTrace e' rest

/-- An enemy already on screen, with its Basic behavior bound. -/
def cEnemyOn : Enemy := { Enemy.spawn ((50 : ℝ), 50) .Basic with state := .OnScreen .Basic }

/-- An enemy already off screen. -/
def cEnemyOff : Enemy := { Enemy.spawn ((50 : ℝ), 50) .Basic with state := .OffScreen }

/-- A Basic enemy spawned above the field (outside the bounds). -/
def c9Enemy : Enemy := Enemy.spawn ((0 : ℝ), -100) .Basic

/-- An off-screen enemy outside the bounds with downward unit velocity. -/
def c9EnemyOff : Enemy :=
  { Enemy.spawn ((0 : ℝ), -100) .Basic with state := .OffScreen, vel := ((0 : ℝ), 1) }

/-- A sniper enemy standing exactly where the player stands. -/
def c10Sniper : Enemy := Enemy.spawn ((50 : ℝ), 50) .Sniper

/-- An event whose dependency targets a non-level-start event. -/
def cEventDep : Event := ⟨1, none, some (7, 2), .SpawnEnemy ((5 : ℝ), 5) .Basic⟩

/-- An event due at time 0. -/
def cEventDue : Event := ⟨2, some 0, none, .SpawnEnemy ((5 : ℝ), 5) .Basic⟩

/-!  ## Theorems: helper lemmas and the per-claim results.  -/

theorem keepUnmarked_congr {α : Type _} (l : List α) (n : ℕ) (idxs idxs' : List ℕ)
    (h : ∀ k, n ≤ k → k < n + l.length → (k ∈ idxs ↔ k ∈ idxs')) :
    keepUnmarked l n idxs = keepUnmarked l n idxs' := by
  induction l generalizing n with
  | nil => rfl
  | cons a l ih =>
    have hn : n ∈ idxs ↔ n ∈ idxs' := h n le_rfl (by simp)
    have hrec := ih (n + 1) (fun k hk1 hk2 => h k (by omega) (by simp at hk2 ⊢; omega))
    by_cases hmem : n ∈ idxs
    · simp [keepUnmarked, hmem, hn.mp hmem, hrec]
    · have hmem' : n ∉ idxs' := fun hc => hmem (hn.mpr hc)
      simp [keepUnmarked, hmem, hmem', hrec]

theorem keepUnmarked_all_lt {α : Type _} (l : List α) (n : ℕ) (idxs : List ℕ)
    (h : ∀ i ∈ idxs, i < n) : keepUnmarked l n idxs = l := by
  induction l generalizing n with
  | nil => rfl
  | cons a l ih =>
    have hn : n ∉ idxs := fun hc => absurd (h n hc) (by omega)
    simp [keepUnmarked, hn, ih (n + 1) (fun i hi => by have := h i hi; omega)]

theorem keepUnmarked_append {α : Type _} (A B : List α) (n : ℕ) (idxs : List ℕ) :
    keepUnmarked (A ++ B) n idxs =
      keepUnmarked A n idxs ++ keepUnmarked B (n + A.length) idxs := by
  induction A generalizing n with
  | nil => simp [keepUnmarked]
  | cons a A ih =>
    have h1 : n + 1 + A.length = n + (a :: A).length := by simp; omega
    by_cases hmem : n ∈ idxs <;>
      simp [keepUnmarked, hmem, ih (n + 1), h1]

theorem foldErase_append {α : Type _} (ridxs : List ℕ) (A B : List α)
    (hp : List.Pairwise (· > ·) ridxs) (hb : ∀ i ∈ ridxs, i < A.length) :
    ridxs.foldlM (fun acc i => eraseAt? acc i) (A ++ B) =
      (ridxs.foldlM (fun acc i => eraseAt? acc i) A).map (· ++ B) := by
  induction ridxs generalizing A with
  | nil => simp
  | cons j rest ih =>
    have hj : j < A.length := hb j (by simp)
    have hj' : j < (A ++ B).length := by simp; omega
    have hsplit : (A ++ B).eraseIdx j = A.eraseIdx j ++ B :=
      List.eraseIdx_append_of_lt_length hj B
    have hlen : (A.eraseIdx j).length = A.length - 1 := by
      rw [List.length_eraseIdx]; simp [hj]
    simp only [List.foldlM_cons, eraseAt?, hj, hj', if_pos, hsplit]
    exact ih (A.eraseIdx j) (List.pairwise_cons.mp hp).2 (fun i hi => by
      have h1 : j > i := (List.pairwise_cons.mp hp).1 i hi
      omega)

theorem foldErase_eq_keepUnmarked {α : Type _} (ridxs : List ℕ) (l : List α)
    (hp : List.Pairwise (· > ·) ridxs) (hb : ∀ i ∈ ridxs, i < l.length) :
    ridxs.foldlM (fun acc i => eraseAt? acc i) l = some (keepUnmarked l 0 ridxs) := by
  induction ridxs generalizing l with
  | nil => simp [keepUnmarked_all_lt l 0 [] (by simp)]
  | cons j rest ih =>
    have hj : j < l.length := hb j (by simp)
    have hrest_lt : ∀ i ∈ rest, i < j := fun i hi => (List.pairwise_cons.mp hp).1 i hi
    have hAlen : (l.take j).length = j := by simp; omega
    have hdropsplit : l.drop j = l[j] :: l.drop (j + 1) := List.drop_eq_getElem_cons hj
    have hl : l = l.take j ++ l[j] :: l.drop (j + 1) := by
      conv_lhs => rw [← List.take_append_drop j l]
      rw [hdropsplit]
    have herase : l.eraseIdx j = l.take j ++ l.drop (j + 1) :=
      List.eraseIdx_eq_take_drop_succ ..
    have hstep : eraseAt? l j = some (l.eraseIdx j) := by simp [eraseAt?, hj]
    rw [List.foldlM_cons, hstep]
    show rest.foldlM (fun acc i => eraseAt? acc i) (l.eraseIdx j) =
      some (keepUnmarked l 0 (j :: rest))
    rw [herase,
      foldErase_append rest (l.take j) (l.drop (j + 1)) (List.pairwise_cons.mp hp).2
        (fun i hi => by rw [hAlen]; exact hrest_lt i hi),
      ih (l.take j) (List.pairwise_cons.mp hp).2
        (fun i hi => by rw [hAlen]; exact hrest_lt i hi)]
    have h1 : keepUnmarked (l.take j) 0 (j :: rest) = keepUnmarked (l.take j) 0 rest :=
      keepUnmarked_congr _ 0 _ _ (fun k hk1 hk2 => by
        rw [hAlen] at hk2
        simp only [List.mem_cons]
        constructor
        · rintro (h | h)
          · omega
          · exact h
        · exact fun h => Or.inr h)
    have h2 : keepUnmarked (l[j] :: l.drop (j + 1)) j (j :: rest) = l.drop (j + 1) := by
      have hmem : j ∈ j :: rest := by simp
      simp only [keepUnmarked, hmem, if_true]
      exact keepUnmarked_all_lt _ _ _ (fun i hi => by
        rcases List.mem_cons.mp hi with h | h
        · omega
        · have := hrest_lt i h; omega)
    have hrhs : keepUnmarked l 0 (j :: rest) =
        keepUnmarked (l.take j) 0 rest ++ l.drop (j + 1) := by
      conv_lhs => rw [hl]
      rw [keepUnmarked_append, h1]
      congr 1
      rw [Nat.zero_add, hAlen]
      exact h2
    rw [hrhs]
    rfl

theorem removeDesc_eq_keepUnmarked {α : Type _} (l : List α) (idxs : List ℕ)
    (hp : List.Pairwise (· < ·) idxs) (hb : ∀ i ∈ idxs, i < l.length) :
    removeDesc l idxs = some (keepUnmarked l 0 idxs) := by
  have hrev : List.Pairwise (· > ·) idxs.reverse := by
    rw [List.pairwise_reverse]
    exact hp
  unfold removeDesc
  rw [foldErase_eq_keepUnmarked idxs.reverse l hrev (fun i hi => hb i (by simpa using hi))]
  congr 1
  exact keepUnmarked_congr l 0 _ _ (fun k hk1 hk2 => by simp)

/-- Per-axis content of `collide_rectangle`: one of B's edges lies in A's
closed span iff the intervals intersect and B does not strictly contain A.
Only B's interval needs to be non-degenerate. -/
theorem edge_in_iff_intersect_not_contain (a1 a2 b1 b2 : ℝ) (hb : b1 ≤ b2) :
    ((a1 ≤ b1 ∧ b1 ≤ a2) ∨ (a1 ≤ b2 ∧ b2 ≤ a2)) ↔
      ((b1 ≤ a2 ∧ a1 ≤ b2) ∧ ¬ (b1 < a1 ∧ a2 < b2)) := by
  constructor
  · rintro (⟨h1, h2⟩ | ⟨h1, h2⟩)
    · exact ⟨⟨h2, by linarith⟩, fun hc => by linarith [hc.1]⟩
    · exact ⟨⟨by linarith, h1⟩, fun hc => by linarith [hc.2]⟩
  · rintro ⟨⟨h1, h2⟩, h3⟩
    by_cases hc : a1 ≤ b1
    · exact Or.inl ⟨hc, h1⟩
    · push_neg at hc
      have hc2 : b2 ≤ a2 := by
        by_contra hc3
        push_neg at hc3
        exact h3 ⟨hc, hc3⟩
      exact Or.inr ⟨h2, hc2⟩

/-- C2 (amended): `collide_rectangle` is not an interval-intersection test
and is not symmetric.  For boxes with non-negative sizes of the second box
it holds exactly when the x-intervals and the y-intervals intersect AND
the second box does not strictly contain the first on either axis; the
strict-containment case is reported as no-overlap, which is also exactly
where symmetry fails (see the counterexample). -/
theorem c2_collide_characterization (pos_a pos_b : Vec2) (size_a size_b : Dimensions)
    (hbw : 0 ≤ size_b.w) (hbh : 0 ≤ size_b.h) :
    collide_rectangle pos_a pos_b size_a size_b ↔
      (((pos_b.1 - size_b.w / 2 ≤ pos_a.1 + size_a.w / 2 ∧
          pos_a.1 - size_a.w / 2 ≤ pos_b.1 + size_b.w / 2) ∧
        ¬ (pos_b.1 - size_b.w / 2 < pos_a.1 - size_a.w / 2 ∧
            pos_a.1 + size_a.w / 2 < pos_b.1 + size_b.w / 2)) ∧
       ((pos_b.2 - size_b.h / 2 ≤ pos_a.2 + size_a.h / 2 ∧
          pos_a.2 - size_a.h / 2 ≤ pos_b.2 + size_b.h / 2) ∧
        ¬ (pos_b.2 - size_b.h / 2 < pos_a.2 - size_a.h / 2 ∧
            pos_a.2 + size_a.h / 2 < pos_b.2 + size_b.h / 2))) := by
  unfold collide_rectangle
  rw [edge_in_iff_intersect_not_contain _ _ _ _ (by linarith),
    edge_in_iff_intersect_not_contain _ _ _ _ (by linarith)]

/-- Witness for C2: the characterization applied to two equal-size boxes. -/
theorem c2_collide_characterization_witness :
    (0 : ℝ) ≤ 10 ∧
      (collide_rectangle ((0 : ℝ), 0) ((3 : ℝ), 4) ⟨10, 10⟩ ⟨10, 10⟩ ↔
        ((((3 : ℝ) - 10 / 2 ≤ 0 + 10 / 2 ∧ (0 : ℝ) - 10 / 2 ≤ 3 + 10 / 2) ∧
          ¬ ((3 : ℝ) - 10 / 2 < 0 - 10 / 2 ∧ (0 : ℝ) + 10 / 2 < 3 + 10 / 2)) ∧
         (((4 : ℝ) - 10 / 2 ≤ 0 + 10 / 2 ∧ (0 : ℝ) - 10 / 2 ≤ 4 + 10 / 2) ∧
          ¬ ((4 : ℝ) - 10 / 2 < 0 - 10 / 2 ∧ (0 : ℝ) + 10 / 2 < 4 + 10 / 2)))) :=
  ⟨by simp, c2_collide_characterization ((0 : ℝ), 0) ((3 : ℝ), 4) ⟨10, 10⟩ ⟨10, 10⟩
    (by simp) (by simp)⟩

/-- C2 counterexample: when box B strictly contains box A on both axes the
predicate reports no overlap one way and overlap the other way, so it is
neither symmetric nor an intersection test. -/
theorem c2_collide_not_symmetric :
    ¬ collide_rectangle ((0 : ℝ), 0) ((0 : ℝ), 0) ⟨2, 2⟩ ⟨10, 10⟩ ∧
      collide_rectangle ((0 : ℝ), 0) ((0 : ℝ), 0) ⟨10, 10⟩ ⟨2, 2⟩ := by
  constructor
  · intro h
    rcases h with ⟨hx, _⟩
    rcases hx with ⟨h1, _⟩ | ⟨_, h2⟩
    · norm_num at h1
    · norm_num at h2
  · constructor
    · exact Or.inl (by norm_num)
    · exact Or.inl (by norm_num)

/-- C5 (amended): `check_end` reports the loss message exactly when the
player's hp is 0 and reports the win message (which carries the final
score) exactly when the enemy collection and the pending-event list are
both empty; the exit flag is set when either condition holds.  The two
conditionals are independent: when both hold, both messages are reported
(loss first), and the loss message never carries the score — there is no
priority of the loss outcome. -/
theorem c5_check_end_characterization : ∀ w : World,
    (EndMsg.lose ∈ (World.check_end w).1 ↔ w.player.hp = 0) ∧
    (EndMsg.win w.score ∈ (World.check_end w).1 ↔
      (w.enemies = [] ∧ w.event_syst.list = [])) ∧
    ((World.check_end w).2 = true ↔
      (w.player.hp = 0 ∨ (w.enemies = [] ∧ w.event_syst.list = []))) := by
  intro w
  unfold World.check_end
  by_cases h1 : w.player.hp = 0 <;>
    by_cases h2 : (w.enemies.isEmpty && w.event_syst.list.isEmpty) = true <;>
      simp only [Bool.and_eq_true, List.isEmpty_iff] at h2 <;>
        simp [h1, h2]

/-- C5 counterexample: with hp = 0 and the win condition holding at once,
both messages are emitted; the win message — not the loss — is the one
carrying the final score, so the loss has no reporting priority. -/
theorem c5_check_end_counterexample :
    World.check_end cWorld5 = ([EndMsg.lose, EndMsg.win 0], true) := rfl

theorem tickScale_zero : tickScale 0 = 0 := by simp [tickScale]

theorem integrate_dt_zero (p : Projectile) : p.integrate 0 = p := by
  simp [Projectile.integrate, tickScale_zero]

/-- C4 (amended): the descending-index removal pass deletes exactly the
elements whose indices were marked — provided the marked index list has no
duplicates (it is strictly ascending, as scan order produces when each
projectile is marked at most once): the result is precisely the unmarked
elements in their original order, with marked-but-absent positions
impossible by the bound hypothesis.  A duplicated mark instead deletes an
additional unmarked element (or panics), see the counterexample. -/
theorem c4_removeDesc_exact {α : Type _} (l : List α) (idxs : List ℕ)
    (hp : List.Pairwise (· < ·) idxs) (hb : ∀ i ∈ idxs, i < l.length) :
    removeDesc l idxs = some (keepUnmarked l 0 idxs) :=
  removeDesc_eq_keepUnmarked l idxs hp hb

/-- Witness for C4: removing index 1 from a three-element list keeps
exactly the elements at indices 0 and 2. -/
theorem c4_removeDesc_exact_witness :
    List.Pairwise (· < ·) [1] ∧
      (∀ i ∈ ([1] : List ℕ), i < ([10, 20, 30] : List ℕ).length) ∧
      removeDesc ([10, 20, 30] : List ℕ) [1] =
        some (keepUnmarked ([10, 20, 30] : List ℕ) 0 [1]) :=
  ⟨by decide, by decide,
    c4_removeDesc_exact ([10, 20, 30] : List ℕ) [1] (by decide) (by decide)⟩

/-- C4 counterexample: a player shot overlapping two surviving enemies is
marked twice (to_remove = [0, 0]); the descending removal pass then also
deletes projectile 1, which was never marked — both projectiles are gone
after the tick. -/
theorem c4_removal_hits_unmarked :
    (projScan cRect 0 0 [cShot0, cShot1] 0 cPlayerFar [cEnemyA, cEnemyB] 0
        []).to_remove = [0, 0] ∧
      (World.update_projectiles cWorld4 0 0).map (fun w => w.projectiles) =
        some [] := by
  have hscan : projScan cRect 0 0 [cShot0, cShot1] 0 cPlayerFar [cEnemyA, cEnemyB] 0 [] =
      { projs := [cShot0, cShot1],
        player := cPlayerFar,
        enemies := [{ cEnemyA with hp := 15 - 2 }, { cEnemyB with hp := 15 - 2 }],
        score := 0, to_remove := [0, 0] } := by
    norm_num [projScan, enemyScan, integrate_dt_zero, cShot0, cShot1, cEnemyA, cEnemyB,
      cPlayerFar, Player.new, Enemy.spawn, Enemy.max_hp, cRect, Rect.contains,
      collide_rectangle, ProjType.isPlayerShot, Cooldown.is_over, Cooldown.with_secs,
      List.replicate]
  refine ⟨by rw [hscan], ?_⟩
  unfold World.update_projectiles
  rw [show cWorld4.rect = cRect from rfl, show cWorld4.projectiles = [cShot0, cShot1] from rfl,
    show cWorld4.player = cPlayerFar from rfl,
    show cWorld4.enemies = [cEnemyA, cEnemyB] from rfl,
    show cWorld4.score = 0 from rfl, hscan]
  simp [removeDesc, eraseAt?, List.foldlM]

/-- C3 (amended): the enemy loop stops early only when a hit kills its
enemy: if no enemy before `e` overlaps the projectile, `e` overlaps it and
the 2-damage hit brings `e`'s hp to `≤ 0`, then `e` is removed on the
spot, 100 score is awarded, the projectile is marked exactly once and the
enemies after `e` are returned untouched — they are never examined.  After
a non-lethal hit the loop continues even though the projectile is already
marked, so it can damage several enemies and be marked several times in
one tick (see the counterexample). -/
theorem c3_enemyScan_stops_on_kill (ppos : Vec2) (es1 : List Enemy) (e : Enemy)
    (es2 : List Enemy)
    (h1 : ∀ e' ∈ es1, ¬ collide_rectangle e'.pos ppos e'.size ⟨10, 10⟩)
    (h2 : collide_rectangle e.pos ppos e.size ⟨10, 10⟩)
    (h3 : e.hp - 2 ≤ 0) :
    enemyScan ppos true (es1 ++ e :: es2) = (es1 ++ es2, 1, 100) := by
  induction es1 with
  | nil => simp [enemyScan, h2, h3]
  | cons a es1 ih =>
    have ha := h1 a (by simp)
    simp [enemyScan, ha, ih (fun e' he' => h1 e' (by simp [he']))]

/-- Witness for C3: a lethal hit on the first enemy removes it, awards
100, marks once, and leaves the rest of the list unexamined. -/
theorem c3_enemyScan_stops_on_kill_witness :
    (∀ e' ∈ ([] : List Enemy), ¬ collide_rectangle e'.pos ((50 : ℝ), 50) e'.size ⟨10, 10⟩) ∧
      collide_rectangle cEnemyDying.pos ((50 : ℝ), 50) cEnemyDying.size ⟨10, 10⟩ ∧
      cEnemyDying.hp - 2 ≤ 0 ∧
      enemyScan ((50 : ℝ), 50) true ([] ++ cEnemyDying :: [cEnemyA]) =
        ([] ++ [cEnemyA], 1, 100) :=
  ⟨by simp,
    by norm_num [cEnemyDying, Enemy.spawn, collide_rectangle],
    by norm_num [cEnemyDying, Enemy.spawn],
    c3_enemyScan_stops_on_kill ((50 : ℝ), 50) [] cEnemyDying [cEnemyA] (by simp)
      (by norm_num [cEnemyDying, Enemy.spawn, collide_rectangle])
      (by norm_num [cEnemyDying, Enemy.spawn])⟩

/-- C3 counterexample: a single player shot overlapping two surviving
enemies damages both of them and is marked for removal twice in the same
tick — the loop does not stop after the first mark. -/
theorem c3_shot_hits_two_enemies :
    enemyScan ((50 : ℝ), 50) true [cEnemyA, cEnemyB] =
      ([{ cEnemyA with hp := 15 - 2 }, { cEnemyB with hp := 15 - 2 }], 2, 0) := by
  norm_num [enemyScan, cEnemyA, cEnemyB, Enemy.spawn, Enemy.max_hp, collide_rectangle]

/-- A projectile that is not player-sourced leaves the enemy loop inert:
no enemy is touched, no mark is pushed, no score is gained. -/
theorem enemyScan_not_shot (ppos : Vec2) (ens : List Enemy) :
    enemyScan ppos false ens = (ens, 0, 0) := by
  induction ens with
  | nil => rfl
  | cons e es ih => simp [enemyScan, ih]

/-- C1 (amended): when a non-player-sourced projectile (still in bounds
after its motion) overlaps the player's hit-box with the damage cooldown
ready, hp is decremented by 1 with a floor at 0; if the decrement leaves
hp positive the projectile is marked for removal, the cooldown is marked
and the scan continues; but when hp reaches 0 (hp was ≤ 1) the scan breaks
immediately — before the projectile is marked and before the cooldown is
marked, so the lethal hit leaves no removal-mark and no cooldown-mark. -/
theorem c1_player_hit_contract (rect : Rect) (dt now : ℚ) (p : Projectile)
    (ps : List Projectile) (i : ℕ) (pl : Player) (ens : List Enemy) (sc : ℕ)
    (rem : List ℕ)
    (hin : rect.contains (p.integrate dt).pos)
    (hsrc : p.variant.isPlayerShot = false)
    (hcd : pl.hp_cd.is_over now = true)
    (hcol : collide_rectangle pl.pos (p.integrate dt).pos pl.size_hit ⟨10, 10⟩) :
    projScan rect dt now (p :: ps) i pl ens sc rem =
      if pl.hp ≤ 1 then
        { projs := p.integrate dt :: ps, player := { pl with hp := pl.hp - 1 },
          enemies := ens, score := sc, to_remove := rem }
      else
        let r := projScan rect dt now ps (i + 1)
          { pl with hp := pl.hp - 1, hp_cd := pl.hp_cd.emit now } ens sc (rem ++ [i])
        { r with projs := p.integrate dt :: r.projs } := by
  have hns := enemyScan_not_shot (p.integrate dt).pos ens
  have hhp1 : (if 0 < pl.hp then pl.hp - 1 else pl.hp) = pl.hp - 1 := by
    by_cases h : 0 < pl.hp
    · simp [h]
    · simp [h]
      omega
  by_cases hle : pl.hp ≤ 1
  · have h0 : pl.hp - 1 = 0 := by omega
    simp [projScan, hin, hsrc, hns, hcd, hcol, hhp1, h0, hle]
  · have h0 : ¬ (pl.hp - 1 = 0) := by omega
    simp [projScan, hin, hsrc, hns, hcd, hcol, hhp1, h0, hle]

/-- Witness for C1: the contract applied to a lethal enemy projectile. -/
theorem c1_player_hit_contract_witness :
    cRect.contains (cProjE.integrate 0).pos ∧
      cProjE.variant.isPlayerShot = false ∧
      cPlayerLow.hp_cd.is_over 0 = true ∧
      collide_rectangle cPlayerLow.pos (cProjE.integrate 0).pos cPlayerLow.size_hit
        ⟨10, 10⟩ ∧
      projScan cRect 0 0 (cProjE :: []) 0 cPlayerLow [] 0 [] =
        (if cPlayerLow.hp ≤ 1 then
          { projs := cProjE.integrate 0 :: [], player := { cPlayerLow with hp := cPlayerLow.hp - 1 },
            enemies := [], score := 0, to_remove := [] }
        else
          let r := projScan cRect 0 0 [] (0 + 1)
            { cPlayerLow with hp := cPlayerLow.hp - 1, hp_cd := cPlayerLow.hp_cd.emit 0 }
            [] 0 ([] ++ [0])
          { r with projs := cProjE.integrate 0 :: r.projs }) :=
  ⟨by norm_num [integrate_dt_zero, cProjE, cRect, Rect.contains],
    rfl, rfl,
    by norm_num [integrate_dt_zero, cProjE, cPlayerLow, Player.new, collide_rectangle],
    c1_player_hit_contract cRect 0 0 cProjE [] 0 cPlayerLow [] 0 []
      (by norm_num [integrate_dt_zero, cProjE, cRect, Rect.contains]) rfl rfl
      (by norm_num [integrate_dt_zero, cProjE, cPlayerLow, Player.new, collide_rectangle])⟩

/-- C1 counterexample: on the hit that brings hp to 0 the projectile is
NOT marked for removal (it survives the tick) and the damage cooldown is
NOT marked (still fresh), contradicting the claim that both marks happen
on every hit. -/
theorem c1_lethal_hit_skips_marks :
    (World.update_projectiles cWorld1 0 0).map
        (fun w => (w.projectiles.length, w.player.hp, w.player.hp_cd.last_emit)) =
      some (1, 0, none) := by
  norm_num [World.update_projectiles, projScan, enemyScan, integrate_dt_zero, cWorld1,
    cProjE, cPlayerLow, Player.new, cRect, Rect.contains, collide_rectangle,
    ProjType.isPlayerShot, Cooldown.is_over, Cooldown.with_secs, removeDesc,
    eraseAt?, List.foldlM, cEvents]

/-- One `update_pos` call preserves the box: each axis either takes the
candidate coordinate, which was just checked to be in range, or keeps the
previous coordinate. -/
theorem update_pos_inBox (p : Player) (inp : Inputs) (bounds : Rect) (dt : ℚ)
    (h : inBox bounds p.pos) : inBox bounds (p.update_pos inp bounds dt).pos := by
  obtain ⟨hx0, hxw, hy0, hyh⟩ := h
  simp only [Player.update_pos]
  by_cases hv : inp.dir ≠ 0
  · rw [if_pos hv]
    by_cases h1 : 0 ≤ (p.pos + (5 * tickScale dt) • inp.dir).1 ∧
        (p.pos + (5 * tickScale dt) • inp.dir).1 ≤ bounds.dims.w
    · by_cases h2 : 0 ≤ (p.pos + (5 * tickScale dt) • inp.dir).2 ∧
          (p.pos + (5 * tickScale dt) • inp.dir).2 ≤ bounds.dims.h
      · rw [if_pos h1, if_pos h2]
        exact ⟨h1.1, h1.2, h2.1, h2.2⟩
      · rw [if_pos h1, if_neg h2]
        exact ⟨h1.1, h1.2, hy0, hyh⟩
    · by_cases h2 : 0 ≤ (p.pos + (5 * tickScale dt) • inp.dir).2 ∧
          (p.pos + (5 * tickScale dt) • inp.dir).2 ≤ bounds.dims.h
      · rw [if_neg h1, if_pos h2]
        exact ⟨hx0, hxw, h2.1, h2.2⟩
      · rw [if_neg h1, if_neg h2]
        exact ⟨hx0, hxw, hy0, hyh⟩
  · rw [if_neg hv]
    exact ⟨hx0, hxw, hy0, hyh⟩

/-- C7: starting inside `[0, bounds.dims.w] × [0, bounds.dims.h]`, the
player's position is still inside after any sequence of updates with
non-negative time deltas; and the axes are clamped independently — a
candidate coordinate out of range on one axis leaves exactly that axis at
its previous value while an in-range candidate on the other axis is
taken. -/
theorem c7_player_stays_in_bounds :
    (∀ (bounds : Rect) (p : Player) (steps : List (Inputs × ℚ)),
        inBox bounds p.pos → (∀ s ∈ steps, 0 ≤ s.2) →
        inBox bounds (playerRun bounds p steps).pos) ∧
    (∀ (p : Player) (inp : Inputs) (bounds : Rect) (dt : ℚ), inp.dir ≠ 0 →
        (¬ (0 ≤ (p.pos + (5 * tickScale dt) • inp.dir).1 ∧
              (p.pos + (5 * tickScale dt) • inp.dir).1 ≤ bounds.dims.w) →
            (p.update_pos inp bounds dt).pos.1 = p.pos.1) ∧
        ((0 ≤ (p.pos + (5 * tickScale dt) • inp.dir).2 ∧
              (p.pos + (5 * tickScale dt) • inp.dir).2 ≤ bounds.dims.h) →
            (p.update_pos inp bounds dt).pos.2 =
              (p.pos + (5 * tickScale dt) • inp.dir).2)) := by
  constructor
  · intro bounds p steps
    induction steps generalizing p with
    | nil => exact fun h _ => h
    | cons s rest ih =>
      intro h hdt
      rcases s with ⟨inp, dt⟩
      exact ih (p.update_pos inp bounds dt) (update_pos_inBox p inp bounds dt h)
        (fun s hs => hdt s (by simp [hs]))
  · intro p inp bounds dt hv
    simp only [Player.update_pos]
    rw [if_pos hv]
    constructor
    · intro h1
      rw [if_neg h1]
    · intro h2
      rw [if_pos h2]

/-- Witness for C7: the box invariant along one step from (90, 90), and
the per-axis clamping at the right wall of a degenerate 0 × 0 box. -/
theorem c7_player_stays_in_bounds_witness :
    inBox cRect cPlayerFar.pos ∧
      (∀ s ∈ ([(cInpRight, (1 : ℚ))] : List (Inputs × ℚ)), 0 ≤ s.2) ∧
      inBox cRect (playerRun cRect cPlayerFar [(cInpRight, (1 : ℚ))]).pos ∧
      cInpRight.dir ≠ 0 ∧
      (¬ (0 ≤ (cPlayerFar.pos + (5 * tickScale 1) • cInpRight.dir).1 ∧
            (cPlayerFar.pos + (5 * tickScale 1) • cInpRight.dir).1 ≤ cRect.dims.w) →
          (cPlayerFar.update_pos cInpRight cRect 1).pos.1 = cPlayerFar.pos.1) := by
  have hbox : inBox cRect cPlayerFar.pos := by
    norm_num [inBox, cRect, cPlayerFar, Player.new]
  have hdt : ∀ s ∈ ([(cInpRight, (1 : ℚ))] : List (Inputs × ℚ)), 0 ≤ s.2 := by
    intro s hs
    simp only [List.mem_singleton] at hs
    simp [hs]
  have hdir : cInpRight.dir ≠ 0 := by
    simp [Inputs.dir, cInpRight, Prod.ext_iff]
  exact ⟨hbox, hdt, c7_player_stays_in_bounds.1 cRect cPlayerFar _ hbox hdt, hdir,
    (c7_player_stays_in_bounds.2 cPlayerFar cInpRight cRect 1 hdir).1⟩

/-- The behavior closures only write `enemy.vel`; position is untouched. -/
theorem runBehavior_pos (f : EnemyType) (e : Enemy) (b : Rect) :
    (Enemy.runBehavior f e b).pos = e.pos := by
  cases f <;> rfl

/-- The behavior closures only write `enemy.vel`; state is untouched. -/
theorem runBehavior_state (f : EnemyType) (e : Enemy) (b : Rect) :
    (Enemy.runBehavior f e b).state = e.state := by
  cases f <;> rfl

/-- The state-independent tail integration of `Enemy::update_pos` never
changes the state. -/
theorem update_tail_state (e1 : Enemy) (dt : ℚ) :
    (if e1.vel ≠ 0 then { e1 with pos := e1.pos + tickScale dt • e1.vel } else e1).state =
      e1.state := by
  split <;> rfl

/-- The state reached by one `Enemy.update_pos` call, by case on the
current state: `NotSpawned` transitions to `OnScreen` exactly when the
once-integrated position is inside the bounds; `OnScreen f` transitions to
`OffScreen` exactly when the (behavior-invariant) position is outside;
`OffScreen` stays. -/
theorem update_pos_state (e : Enemy) (b : Rect) (dt : ℚ) :
    (e.update_pos b dt).state =
      match e.state with
      | .NotSpawned =>
          if b.contains (e.pos + tickScale dt • (SPEED • ((0, 1) : Vec2)))
          then .OnScreen e.variant else .NotSpawned
      | .OnScreen f => if ¬ b.contains e.pos then .OffScreen else .OnScreen f
      | .OffScreen => .OffScreen := by
  simp only [Enemy.update_pos]
  rw [update_tail_state]
  rcases he : e.state with _ | f | _
  · simp only [he]
    by_cases hc : b.contains (e.pos + tickScale dt • (SPEED • ((0, 1) : Vec2)))
    · rw [if_pos hc, if_pos hc]
      rfl
    · rw [if_neg hc, if_neg hc]
  · simp only [he]
    rw [runBehavior_pos]
    by_cases hc : b.contains e.pos
    · rw [if_neg (not_not_intro hc), if_neg (not_not_intro hc), runBehavior_state, he]
    · rw [if_pos hc, if_pos hc]
  · simp only [he]

/-- Every single `Enemy.update_pos` step is an allowed transition. -/
theorem update_pos_stepOk (e : Enemy) (b : Rect) (dt : ℚ) :
    stepOk e.state (e.update_pos b dt).state := by
  rw [update_pos_state]
  rcases he : e.state with _ | f | _ <;> simp only [he]
  · split <;> trivial
  · split <;> simp [stepOk]
  · trivial

/-- C8: along every sequence of updates the observed state sequence only
makes the allowed forward transitions — so it is a (de-duplicated) prefix
of `NotSpawned, OnScreen, OffScreen` with the `OnScreen` behavior retained;
moreover `NotSpawned → OnScreen` happens exactly on the first tick the
integrated position is inside the bounds, `OnScreen → OffScreen` exactly
when the position has ceased to be inside, and `OffScreen` is terminal. -/
theorem c8_enemy_state_machine :
    (∀ (e : Enemy) (steps : List (Rect × ℚ)),
        List.Chain' stepOk ((e :: enemyTrace e steps).map Enemy.state)) ∧
    (∀ (e : Enemy) (b : Rect) (dt : ℚ), e.state = .NotSpawned →
        ((e.update_pos b dt).state = .OnScreen e.variant ↔
          b.contains (e.pos + tickScale dt • (SPEED • ((0, 1) : Vec2)))) ∧
        ((e.update_pos b dt).state = .NotSpawned ↔
          ¬ b.contains (e.pos + tickScale dt • (SPEED • ((0, 1) : Vec2))))) ∧
    (∀ (e : Enemy) (b : Rect) (dt : ℚ) (f : EnemyType), e.state = .OnScreen f →
        ((e.update_pos b dt).state = .OffScreen ↔ ¬ b.contains e.pos) ∧
        ((e.update_pos b dt).state = .OnScreen f ↔ b.contains e.pos)) ∧
    (∀ (e : Enemy) (b : Rect) (dt : ℚ), e.state = .OffScreen →
        (e.update_pos b dt).state = .OffScreen) := by
  refine ⟨?_, ?_, ?_, ?_⟩
  · intro e steps
    induction steps generalizing e with
    | nil => simp [enemyTrace]
    | cons s rest ih =>
      rcases s with ⟨b, dt⟩
      have hstep := update_pos_stepOk e b dt
      have htail := ih (e.update_pos b dt)
      simp only [enemyTrace, List.map_cons] at htail ⊢
      exact List.chain'_cons.mpr ⟨hstep, htail⟩
  · intro e b dt he
    rw [update_pos_state, he]
    by_cases hc : b.contains (e.pos + tickScale dt • (SPEED • ((0, 1) : Vec2))) <;>
      simp [hc]
  · intro e b dt f he
    rw [update_pos_state, he]
    by_cases hc : b.contains e.pos <;> simp [hc]
  · intro e b dt he
    rw [update_pos_state, he]

/-- The position reached by the state-independent tail integration of
`Enemy::update_pos`. -/
theorem update_tail_pos (e1 : Enemy) (dt : ℚ) :
    (if e1.vel ≠ 0 then { e1 with pos := e1.pos + tickScale dt • e1.vel } else e1).pos =
      if e1.vel ≠ 0 then e1.pos + tickScale dt • e1.vel else e1.pos := by
  split <;> rfl

/-- Witness for C8: one concrete instantiation per conjunct. -/
theorem c8_enemy_state_machine_witness :
    List.Chain' stepOk ((cEnemyA :: enemyTrace cEnemyA [(cRect, 1)]).map Enemy.state) ∧
      ((cEnemyA.update_pos cRect 0).state = .OnScreen cEnemyA.variant ↔
        cRect.contains (cEnemyA.pos + tickScale 0 • (SPEED • ((0, 1) : Vec2)))) ∧
      ((cEnemyOn.update_pos cRect 0).state = .OffScreen ↔
        ¬ cRect.contains cEnemyOn.pos) ∧
      (cEnemyOff.update_pos cRect 0).state = .OffScreen :=
  ⟨c8_enemy_state_machine.1 cEnemyA [(cRect, 1)],
    (c8_enemy_state_machine.2.1 cEnemyA cRect 0 rfl).1,
    (c8_enemy_state_machine.2.2.1 cEnemyOn cRect 0 .Basic rfl).1,
    c8_enemy_state_machine.2.2.2 cEnemyOff cRect 0 rfl⟩

/-- The fixed pre-spawn velocity is non-zero. -/
theorem prespawn_vel_ne_zero : (SPEED • ((0, 1) : Vec2)) ≠ 0 := by
  simp [Prod.smul_mk, Prod.ext_iff, SPEED]
  norm_num

/-- C9 (amended): a `NotSpawned` enemy advances by its velocity integrated
TWICE per update — once inside the `NotSpawned` arm and once more by the
state-independent step — for a total displacement of
`2 · (SPEED·unit_y) · dt/DT_60`, not a single integration; and the
state-independent integration fires whenever the velocity is non-zero,
with no bounds condition at all (here shown for an `OffScreen` enemy,
whose position may well be outside the bounds). -/
theorem c9_not_spawned_double_integration :
    (∀ (e : Enemy) (bounds : Rect) (dt : ℚ), e.state = .NotSpawned →
        (e.update_pos bounds dt).pos =
          e.pos + tickScale dt • (SPEED • ((0, 1) : Vec2))
            + tickScale dt • (SPEED • ((0, 1) : Vec2))) ∧
    (∀ (e : Enemy) (bounds : Rect) (dt : ℚ), e.state = .OffScreen → e.vel ≠ 0 →
        (e.update_pos bounds dt).pos = e.pos + tickScale dt • e.vel) := by
  constructor
  · intro e bounds dt he
    simp only [Enemy.update_pos, he]
    rw [update_tail_pos]
    by_cases hc : bounds.contains (e.pos + tickScale dt • (SPEED • ((0, 1) : Vec2)))
    · rw [if_pos hc]
      dsimp only
      rw [if_pos prespawn_vel_ne_zero]
    · rw [if_neg hc]
      dsimp only
      rw [if_pos prespawn_vel_ne_zero]
  · intro e bounds dt he hv
    simp only [Enemy.update_pos, he]
    rw [if_pos hv]

/-- Witness for C9: both parts applied to concrete enemies. -/
theorem c9_not_spawned_double_integration_witness :
    cEnemyA.state = .NotSpawned ∧
      (cEnemyA.update_pos cRect 1).pos =
        cEnemyA.pos + tickScale 1 • (SPEED • ((0, 1) : Vec2))
          + tickScale 1 • (SPEED • ((0, 1) : Vec2)) ∧
      (({ cEnemyOff with vel := ((0 : ℝ), 1) }).update_pos cRect 1).pos =
        ({ cEnemyOff with vel := ((0 : ℝ), 1) }).pos + tickScale 1 • ((0 : ℝ), 1) :=
  ⟨rfl,
    c9_not_spawned_double_integration.1 cEnemyA cRect 1 rfl,
    c9_not_spawned_double_integration.2 { cEnemyOff with vel := ((0 : ℝ), 1) } cRect 1 rfl
      (by simp [Prod.ext_iff])⟩

/-- C9 counterexample: with `dt = DT_60` the `NotSpawned` enemy moves a
full unit down although its velocity is `(0, 0.5)` — one velocity
integration would give `(0, -199/2)`, but the position after the update is
`(0, -99)` (two integrations); and an `OffScreen` enemy whose position is
outside the bounds still moves, so the state-independent integration is
not restricted to enemies inside the bounds. -/
theorem c9_single_integration_refuted :
    (c9Enemy.update_pos cRect DT_60).pos = ((0 : ℝ), -99) ∧
      (c9Enemy.update_pos cRect DT_60).vel = ((0 : ℝ), 1 / 2) ∧
      c9Enemy.pos + tickScale DT_60 • (c9Enemy.update_pos cRect DT_60).vel =
        ((0 : ℝ), -199 / 2) ∧
      ((0 : ℝ), -199 / 2) ≠ ((0 : ℝ), -99) ∧
      ¬ cRect.contains c9EnemyOff.pos ∧
      (c9EnemyOff.update_pos cRect DT_60).pos = ((0 : ℝ), -99) := by
  have hts : tickScale DT_60 = 1 := by
    norm_num [tickScale, DT_60]
  refine ⟨?_, ?_, ?_, ?_, ?_, ?_⟩ <;>
    norm_num [Enemy.update_pos, c9Enemy, c9EnemyOff, Enemy.spawn, Enemy.max_hp, cRect,
      Rect.contains, hts, SPEED, Prod.smul_mk, Prod.ext_iff, Prod.mk_add_mk,
      Enemy.enemy_func]

/-- C10 (amended): the sniper `OnScreen` behavior normalizes the direction
to `(bounds.dims.w / 2, 0)` with no zero-vector guard, so its velocity is
well-defined exactly when the enemy is not at that point (the `Option`
value is exactly the unguarded behavior's velocity otherwise); by
contrast, the sniper shooting path guards its normalization and emits the
zero velocity vector when the player's position coincides with the
projectile's spawn position — which is the enemy's position offset
`0.6 · size.h` downward, not the enemy's position itself (see the
counterexample). -/
theorem c10_sniper_normalize_guards :
    (∀ (pos : Vec2) (bounds : Rect),
        (sniperOnScreenVel pos bounds).isSome = true ↔
          pos ≠ ((bounds.dims.w / 2, 0) : Vec2)) ∧
    (∀ (e : Enemy) (bounds : Rect),
        sniperOnScreenVel e.pos bounds =
          if (((bounds.dims.w / 2, 0) : Vec2) - e.pos) = 0 then none
          else some ((Enemy.runBehavior .Sniper e bounds).vel)) ∧
    (∀ p : Vec2, sniperShootVel p p = 0) := by
  refine ⟨?_, ?_, ?_⟩
  · intro pos bounds
    unfold sniperOnScreenVel normalizeOpt
    by_cases h : (((bounds.dims.w / 2, 0) : Vec2) - pos) = 0
    · have hp : pos = ((bounds.dims.w / 2, 0) : Vec2) := (sub_eq_zero.mp h).symm
      simp [h, hp]
    · have hp : pos ≠ ((bounds.dims.w / 2, 0) : Vec2) := by
        intro hc
        exact h (by rw [hc]; exact sub_self _)
      simp [h, hp]
  · intro e bounds
    unfold sniperOnScreenVel normalizeOpt Enemy.runBehavior
    by_cases h : (((bounds.dims.w / 2, 0) : Vec2) - e.pos) = 0
    · simp [h]
    · simp [h]
  · intro p
    unfold sniperShootVel
    simp

/-- C10 counterexample: with the player's position equal to the enemy's
position, the shooting guard does NOT fire (the guarded `delta` is the
offset from the spawn point, not from the enemy), and the emitted velocity
is `(0, -10)`, not the zero vector. -/
theorem c10_coincident_positions_still_shoot :
    c10Sniper.pos = ((50 : ℝ), 50) ∧
      enemyShootPos c10Sniper = ((50 : ℝ), 50 + 48 * 0.6) ∧
      sniperShootVel ((50 : ℝ), 50) ((50 : ℝ), 50 + 48 * 0.6) = ((0 : ℝ), -10) ∧
      (((0 : ℝ), -10) : Vec2) ≠ 0 := by
  have h1 : enemyShootPos c10Sniper = ((50 : ℝ), 50 + 48 * 0.6) := by
    norm_num [enemyShootPos, c10Sniper, Enemy.spawn, Prod.smul_mk, Prod.ext_iff,
      Prod.mk_add_mk]
  have hd : (((50 : ℝ), 50) - (((50 : ℝ), 50 + 48 * 0.6)) : Vec2) =
      ((0 : ℝ), -(144 / 5)) := by
    norm_num [Prod.mk_sub_mk, Prod.ext_iff]
  have hdne : (((0 : ℝ), -(144 / 5)) : Vec2) ≠ 0 := by
    simp [Prod.ext_iff]
  have hs : Real.sqrt ((0 : ℝ) ^ 2 + (-(144 / 5) : ℝ) ^ 2) = 144 / 5 := by
    have harg : ((0 : ℝ) ^ 2 + (-(144 / 5) : ℝ) ^ 2) = (144 / 5 : ℝ) ^ 2 := by norm_num
    rw [harg, Real.sqrt_sq (by norm_num : (0 : ℝ) ≤ 144 / 5)]
  refine ⟨rfl, h1, ?_, by simp [Prod.ext_iff]⟩
  simp only [sniperShootVel]
  rw [hd, if_pos hdne]
  simp only [normalize]
  rw [hs]
  norm_num [Prod.smul_mk, Prod.ext_iff]

theorem collectDue_idx_bounds (now : ℚ) :
    ∀ (l : List Event) (n i : ℕ), i ∈ (collectDue now l n).1 → n ≤ i ∧ i < n + l.length := by
  intro l
  induction l with
  | nil =>
    intro n i hi
    simp [collectDue] at hi
  | cons e es ih =>
    intro n i hi
    simp only [collectDue] at hi
    by_cases hd : e.due now = true
    · simp only [hd, if_true] at hi
      rcases List.mem_cons.mp hi with h | h
      · subst h
        simp only [List.length_cons]
        omega
      · have h2 := ih (n + 1) i h
        simp only [List.length_cons]
        omega
    · simp only [hd, if_false] at hi
      have h2 := ih (n + 1) i hi
      simp only [List.length_cons]
      omega

theorem collectDue_pairwise (now : ℚ) :
    ∀ (l : List Event) (n : ℕ), List.Pairwise (· < ·) (collectDue now l n).1 := by
  intro l
  induction l with
  | nil =>
    intro n
    simp [collectDue]
  | cons e es ih =>
    intro n
    simp only [collectDue]
    by_cases hd : e.due now = true
    · simp only [hd, if_true]
      refine List.pairwise_cons.mpr ⟨?_, ih (n + 1)⟩
      intro i hi
      have := (collectDue_idx_bounds now es (n + 1) i hi).1
      omega
    · simp only [hd, if_false]
      exact ih (n + 1)

theorem collectDue_spawned (now : ℚ) :
    ∀ (l : List Event) (n : ℕ),
      (collectDue now l n).2 = (l.filter (fun e => e.due now)).filterMap spawnOf := by
  intro l
  induction l with
  | nil =>
    intro n
    simp [collectDue]
  | cons e es ih =>
    intro n
    simp only [collectDue, List.filter_cons]
    by_cases hd : e.due now = true
    · cases hs : spawnOf e <;>
        simp [hd, hs, List.filterMap_cons, ih (n + 1), Option.toList]
    · simp [hd, ih (n + 1)]

theorem keepUnmarked_collectDue (now : ℚ) :
    ∀ (l : List Event) (n : ℕ),
      keepUnmarked l n (collectDue now l n).1 = l.filter (fun e => ! e.due now) := by
  intro l
  induction l with
  | nil =>
    intro n
    simp [collectDue, keepUnmarked]
  | cons e es ih =>
    intro n
    simp only [collectDue, keepUnmarked, List.filter_cons]
    by_cases hd : e.due now = true
    · have hcong : keepUnmarked es (n + 1) (n :: (collectDue now es (n + 1)).1) =
          keepUnmarked es (n + 1) (collectDue now es (n + 1)).1 :=
        keepUnmarked_congr es (n + 1) _ _ (fun k hk1 hk2 => by
          simp only [List.mem_cons]
          constructor
          · rintro (h | h)
            · omega
            · exact h
          · exact fun h => Or.inr h)
      simp [hd, hcong, ih (n + 1)]
    · have hnm : n ∉ (collectDue now es (n + 1)).1 := fun hc => by
        have := (collectDue_idx_bounds now es (n + 1) n hc).1
        omega
      simp [hd, hnm, ih (n + 1)]

/-- A full characterization of one `process_events` call: the pending list
loses exactly the due events and the spawned enemies are exactly the
`SpawnEnemy` payloads of the due events, in scan order. -/
theorem processEvents_characterization (l : List Event) (now : ℚ) :
    processEvents l now =
      some (l.filter (fun e => ! e.due now),
        (l.filter (fun e => e.due now)).filterMap spawnOf) := by
  simp only [processEvents]
  rw [removeDesc_eq_keepUnmarked l (collectDue now l 0).1 (collectDue_pairwise now l 0)
      (fun i hi => by simpa using (collectDue_idx_bounds now l 0 i hi).2),
    Option.map_some', keepUnmarked_collectDue now l 0, collectDue_spawned now l 0]

/-- C6: one `process_events` call fires exactly the due events — the new
pending list is the original minus all due events (so a fired event can
never fire again: it is gone) and exactly one enemy is added per due
`SpawnEnemy` payload; an event with no resolved fire time is never due and
survives every call; and `EventSystem::new` leaves an event untouched
(time still unresolved) when its dependency targets anything other than
`LEVEL_REF`. -/
theorem c6_events_fire_exactly_once :
    (∀ (l : List Event) (now : ℚ),
        processEvents l now =
          some (l.filter (fun e => ! e.due now),
            (l.filter (fun e => e.due now)).filterMap spawnOf)) ∧
    (∀ (l : List Event) (now : ℚ) (e : Event), e.due now = true →
        e ∉ l.filter (fun e => ! e.due now)) ∧
    (∀ (e : Event) (now : ℚ), e.time = none → e.due now = false) ∧
    (∀ (l : List Event) (now : ℚ) (e : Event), e ∈ l → e.time = none →
        e ∈ l.filter (fun e => ! e.due now)) ∧
    (∀ (evts : List Event) (now0 : ℚ) (e : Event), e ∈ evts → e.time = none →
        (∀ x t, e.ref_evt = some (x, t) → x ≠ LEVEL_REF) →
        e ∈ (EventSystem.new evts now0).list) := by
  refine ⟨fun l now => processEvents_characterization l now, ?_, ?_, ?_, ?_⟩
  · intro l now e hdue hmem
    rcases List.mem_filter.mp hmem with ⟨_, hval⟩
    rw [hdue] at hval
    simp at hval
  · intro e now ht
    simp [Event.due, ht]
  · intro l now e hmem ht
    refine List.mem_filter.mpr ⟨hmem, ?_⟩
    simp [Event.due, ht]
  · intro evts now0 e hmem ht hx
    unfold EventSystem.new
    refine List.mem_map.mpr ⟨e, hmem, ?_⟩
    cases hr : e.ref_evt with
    | none => rfl
    | some p =>
      rcases p with ⟨x, t⟩
      have hne := hx x t hr
      simp [hne]

/-- Witness for C6: each conjunct applied at a concrete event list. -/
theorem c6_events_fire_exactly_once_witness :
    (processEvents [cEventDue] 0 =
        some (([cEventDue].filter (fun e => ! e.due 0)),
          ([cEventDue].filter (fun e => e.due 0)).filterMap spawnOf)) ∧
      cEventDue.due 0 = true ∧
      cEventDue ∉ [cEventDue].filter (fun e => ! e.due 0) ∧
      cEventDep.time = none ∧
      cEventDep.due 5 = false ∧
      cEventDep ∈ [cEventDep].filter (fun e => ! e.due 5) ∧
      cEventDep ∈ (EventSystem.new [cEventDep] 0).list := by
  have hdue : cEventDue.due 0 = true := rfl
  have htime : cEventDep.time = none := rfl
  have hx : ∀ x t, cEventDep.ref_evt = some (x, t) → x ≠ LEVEL_REF := by
    intro x t h
    simp [cEventDep] at h
    have h7 : x = 7 := by omega
    subst h7
    decide
  exact ⟨c6_events_fire_exactly_once.1 [cEventDue] 0, hdue,
    c6_events_fire_exactly_once.2.1 [cEventDue] 0 cEventDue hdue,
    htime,
    c6_events_fire_exactly_once.2.2.1 cEventDep 5 htime,
    c6_events_fire_exactly_once.2.2.2.1 [cEventDep] 5 cEventDep (by simp) htime,
    c6_events_fire_exactly_once.2.2.2.2 [cEventDep] 0 cEventDep (by simp) htime hx⟩

end TohHoh
